import Mathlib

/-!
Verification of the contact-center discrete-event simulation
(`001_resourse_control_discr_sim_mod.py`).

The Python program runs a simpy-based simulation of a contact center: an
arrival generator spawns request-processing tasks that contend for a fixed
capacity agent resource, pass a mode-dependent polling gate, record waiting
time and QoE, and hold an agent for an exponentially drawn service time.
A queue monitor switches between a 'full' and a 'simplified' agent mode,
and a QoE monitor samples the running mean QoE once per time unit.

The embedding below has two layers:

1. A small-step transition relation `Step` over `SimState`.  Each
   constructor is one atomic segment of a simpy task (the code between two
   suspension points: `yield env.timeout`, `yield req`).  The scheduler is
   over-approximated: any enabled atomic segment may fire, and simulated
   time may advance by any nonnegative amount, so every schedule the real
   cooperative event loop can produce is included.  Random draws appear as
   universally quantified nonnegative rationals (the range of
   `random.expovariate` for a positive rate, which returns
   `-log(1 - random())/lambd` with `random() ∈ [0, 1)`, hence any value
   `≥ 0`, including `0` exactly when `random()` returns `0.0`).
   Invariant claims are proved against this relation.

2. An executable deterministic event-loop interpreter `simulate` that
   mirrors simpy's scheduler: a pending-event list ordered by
   (time, priority, insertion sequence), with process starts at URGENT
   priority and timeouts / triggered resource requests at NORMAL priority,
   stopping at the first event at or past `SIM_TIME` (the stop event of
   `env.run(until=SIM_TIME)` has URGENT priority and the lowest sequence
   number at that instant).  It reuses the very same atomic-action
   functions as the relation.  Determinism and concrete runs are settled
   against this interpreter.

Numbers are modelled as rationals; the Python floats `0.05`, `0.8`, `0.01`
become the rationals they denote in the source text.
-/

namespace ContactCenter

/-- The two agent modes, the values of the Python string variable
`agent_type` ('full' / 'simplified'). -/
inductive AgentType where
  | full
  | simplified
deriving DecidableEq, Repr

/-- The per-run parameters.  `REQUEST_ARRIVAL_RATE` and
`QUEUE_THRESHOLD_TO_SIMP` are the two sweep variables of
`run_simulation`; `AVG_PROCESSING_TIME` and `QUEUE_THRESHOLD_TO_BASE` are
hardcoded in the source (to 1 and 0) but kept as parameters so that the
configuration-validity claims can be stated. -/
structure Config where
  REQUEST_ARRIVAL_RATE : ℚ
  AVG_PROCESSING_TIME : ℚ
  QUEUE_THRESHOLD_TO_SIMP : ℕ
  QUEUE_THRESHOLD_TO_BASE : ℕ
deriving DecidableEq, Repr

/-- Source constant `SIM_TIME = 1000` (line 15). -/
def SIM_TIME : ℚ := 1000

/-- Source constant `NUM_AGENTS_FULL = 10` (line 16). -/
def NUM_AGENTS_FULL : ℕ := 10

/-- Source constant `NUM_AGENTS_SIMPLIFIED = 20` (line 17). -/
def NUM_AGENTS_SIMPLIFIED : ℕ := 20

/-- Source constant `QoE_FULL_BASE = 1.0` (line 20). -/
def QoE_FULL_BASE : ℚ := 1

/-- Source constant `QoE_SIMPLIFIED_BASE = 0.8` (line 21). -/
def QoE_SIMPLIFIED_BASE : ℚ := 8/10

/-- Source constant `ALPHA = 0.05` (line 22). -/
def ALPHA : ℚ := 1/20

/-- The mode baseline chosen in `process_request`:
`base_qoe = QoE_FULL_BASE if agent_type == 'full' else QoE_SIMPLIFIED_BASE`. -/
def baseQoE : AgentType → ℚ
  | .full => QoE_FULL_BASE
  | .simplified => QoE_SIMPLIFIED_BASE

/-- The state of one simulation run, as captured by the closure variables
of `run_simulation` for a single `(threshold, arrival rate)` pair.

`queue` is `agent_resource.queue` (requests waiting for a raw slot) and
`gate` holds the requests that have been granted a raw slot (`yield req`
returned) but are still in the `while busy_agents >= available_agents`
polling loop; both store `(request_id, arrival_time)`.  `in_service`
counts requests between `busy_agents += 1` and `busy_agents -= 1`.
`service_draws` is a history variable recording each drawn
`processing_time`; the Python program uses the draw only as a timeout, so
this list is ghost state used to state properties of the draws. -/
structure SimState where
  now : ℚ
  agent_type : AgentType
  busy_agents : ℕ
  available_agents : ℕ
  capacity : ℕ
  users : ℕ
  queue : List (ℕ × ℚ)
  gate : List (ℕ × ℚ)
  in_service : ℕ
  waiting_times : List ℚ
  qoe_values : List ℚ
  time_points : List ℚ
  simplified_agent_counts_over_time : List ℚ
  time_qoe : List ℚ
  qoe_over_time : List ℚ
  service_draws : List ℚ
deriving DecidableEq, Repr

/-- The state at `env.run` start: `agent_type = 'full'`, `busy_agents = 0`,
`available_agents = NUM_AGENTS_FULL`,
`agent_resource = simpy.Resource(env, capacity=NUM_AGENTS_SIMPLIFIED)`,
all metric lists empty. -/
def initState : SimState where
  now := 0
  agent_type := .full
  busy_agents := 0
  available_agents := NUM_AGENTS_FULL
  capacity := NUM_AGENTS_SIMPLIFIED
  users := 0
  queue := []
  gate := []
  in_service := 0
  waiting_times := []
  qoe_values := []
  time_points := []
  simplified_agent_counts_over_time := []
  time_qoe := []
  qoe_over_time := []
  service_draws := []

/-- Simulated time advancing (the effect of any `yield env.timeout(d)`
with `d ≥ 0`); touches no other component of the state. -/
def advanceStep (d : ℚ) (s : SimState) : SimState :=
  { s with now := s.now + d }

/-- One request arrival: `process_request` runs from its start up to and
including `yield req`.  It records `arrival_time = env.now` and issues
`agent_resource.request()`: simpy grants the request at once when
`len(users) < capacity` (the process then sits before the polling gate),
otherwise it is appended to the resource's FIFO queue. -/
def arriveStep (id : ℕ) (s : SimState) : SimState :=
  if s.users < s.capacity then
    { s with users := s.users + 1, gate := s.gate ++ [(id, s.now)] }
  else
    { s with queue := s.queue ++ [(id, s.now)] }

/-- The service-entry segment of `process_request`: the polling loop
`while busy_agents >= available_agents` has just observed
`busy_agents < available_agents`, and with no suspension point in between
the task runs `busy_agents += 1`, computes and appends
`waiting_time = env.now - arrival_time`, draws `processing_time`
(recorded here in the ghost list `service_draws`), selects `base_qoe`
from the current `agent_type`, and appends
`qoe = max(0, base_qoe - ALPHA * waiting_time)`.
`gate'` is the gate list with this request removed. -/
def enterServiceStep (gate' : List (ℕ × ℚ)) (arrival d : ℚ) (s : SimState) :
    SimState :=
  { s with
    gate := gate'
    busy_agents := s.busy_agents + 1
    in_service := s.in_service + 1
    waiting_times := s.waiting_times ++ [s.now - arrival]
    qoe_values :=
      s.qoe_values ++ [max 0 (baseQoE s.agent_type - ALPHA * (s.now - arrival))]
    service_draws := s.service_draws ++ [d] }

/-- The service-completion segment of `process_request`: after
`yield env.timeout(processing_time)` the task runs `busy_agents -= 1` and
leaves the `with agent_resource.request()` block, releasing the raw slot.
simpy's release immediately triggers the head of the resource queue when
one is pending (moving it in front of the polling gate, the slot changing
hands), and otherwise frees the slot. -/
def endServiceStep (s : SimState) : SimState :=
  match s.queue with
  | [] =>
    { s with
      busy_agents := s.busy_agents - 1
      in_service := s.in_service - 1
      users := s.users - 1 }
  | r :: rest =>
    { s with
      busy_agents := s.busy_agents - 1
      in_service := s.in_service - 1
      queue := rest
      gate := s.gate ++ [r] }

/-- The mode-switching half of one `monitor_queue` iteration
(`queue_length = len(agent_resource.queue)` followed by the
if/elif on lines 116-125): switch to 'simplified' when
`queue_length > QUEUE_THRESHOLD_TO_SIMP`, else switch back to 'full' when
`queue_length <= QUEUE_THRESHOLD_TO_BASE` and
`busy_agents <= NUM_AGENTS_FULL`; each switch updates `agent_type` and
`available_agents` together. -/
def switchStep (cfg : Config) (s : SimState) : SimState :=
  if s.queue.length > cfg.QUEUE_THRESHOLD_TO_SIMP ∧ s.agent_type ≠ .simplified then
    { s with agent_type := .simplified, available_agents := NUM_AGENTS_SIMPLIFIED }
  else if s.queue.length ≤ cfg.QUEUE_THRESHOLD_TO_BASE ∧ s.agent_type ≠ .full ∧
      s.busy_agents ≤ NUM_AGENTS_FULL then
    { s with agent_type := .full, available_agents := NUM_AGENTS_FULL }
  else
    s

/-- The sampling half of the same `monitor_queue` iteration (lines
128-130), reading the variables as already updated by the if/elif:
append `env.now` to `time_points` and
`available_agents - NUM_AGENTS_FULL if agent_type == 'simplified' else 0`
to `simplified_agent_counts_over_time`. -/
def recordAgentsStep (s : SimState) : SimState :=
  { s with
    time_points := s.time_points ++ [s.now]
    simplified_agent_counts_over_time :=
      s.simplified_agent_counts_over_time ++
        [if s.agent_type = .simplified then
          (s.available_agents : ℚ) - (NUM_AGENTS_FULL : ℚ) else 0] }

/-- One full `monitor_queue` iteration (no suspension point inside). -/
def monitorQueueStep (cfg : Config) (s : SimState) : SimState :=
  recordAgentsStep (switchStep cfg s)

/-- Line 138 of `monitor_qoe`:
`sum(qoe_values) / len(qoe_values) if qoe_values else QoE_FULL_BASE`. -/
def currentMeanQoE (qoe_values : List ℚ) : ℚ :=
  if qoe_values = [] then QoE_FULL_BASE
  else qoe_values.sum / (qoe_values.length : ℚ)

/-- One `monitor_qoe` iteration (lines 137-140): append `env.now` and the
running mean QoE (with the Full-baseline fallback on the empty list). -/
def monitorQoEStep (s : SimState) : SimState :=
  { s with
    time_qoe := s.time_qoe ++ [s.now]
    qoe_over_time := s.qoe_over_time ++ [currentMeanQoE s.qoe_values] }

/-- Line 152, the end-of-run QoE reduction:
`sum(qoe_values) / len(qoe_values) if qoe_values else QoE_FULL_BASE`. -/
def average_qoe (qoe_values : List ℚ) : ℚ :=
  if qoe_values = [] then QoE_FULL_BASE
  else qoe_values.sum / (qoe_values.length : ℚ)

/-- Line 153, the end-of-run wait reduction:
`sum(waiting_times) / len(waiting_times) if waiting_times else 0`. -/
def average_waiting_time (waiting_times : List ℚ) : ℚ :=
  if waiting_times = [] then 0
  else waiting_times.sum / (waiting_times.length : ℚ)

/-- Line 154, the end-of-run extra-agent reduction:
`statistics.mean(...) if simplified_agent_counts_over_time else 0`. -/
def average_simplified_agents (xs : List ℚ) : ℚ :=
  if xs = [] then 0 else xs.sum / (xs.length : ℚ)

/-- The small-step relation of one simulation run.  Each constructor fires
one atomic segment of one simpy task; the cooperative scheduler is
over-approximated by allowing any enabled segment to fire and time to
advance by any nonnegative amount, so the relation contains every
interleaving the real event loop can produce.

* `enter` requires the request `(id, a)` to hold a raw slot (be in the
  gate list) and the polling condition `busy_agents < available_agents`
  to have just been observed — the source has no suspension point between
  that observation and `busy_agents += 1`.  The drawn service time `d` is
  any possible value of `random.expovariate(1.0 / AVG_PROCESSING_TIME)`,
  i.e. any nonnegative value.
* `endService` fires for a request currently in service. -/
inductive Step (cfg : Config) : SimState → SimState → Prop where
  | advance (s : SimState) (d : ℚ) (hd : 0 ≤ d) :
      Step cfg s (advanceStep d s)
  | arrive (s : SimState) (id : ℕ) :
      Step cfg s (arriveStep id s)
  | enter (s : SimState) (g₁ g₂ : List (ℕ × ℚ)) (id : ℕ) (a d : ℚ)
      (hg : s.gate = g₁ ++ (id, a) :: g₂)
      (hbusy : s.busy_agents < s.available_agents)
      (hd : 0 ≤ d) :
      Step cfg s (enterServiceStep (g₁ ++ g₂) a d s)
  | endService (s : SimState) (hin : 0 < s.in_service) :
      Step cfg s (endServiceStep s)
  | monitorQueue (s : SimState) :
      Step cfg s (monitorQueueStep cfg s)
  | monitorQoE (s : SimState) :
      Step cfg s (monitorQoEStep s)

/-- The states a run can reach from the initial state. -/
inductive Reachable (cfg : Config) : SimState → Prop where
  | init : Reachable cfg initState
  | step {s t : SimState} (hr : Reachable cfg s) (hs : Step cfg s t) :
      Reachable cfg t

/-- The inductive invariant of a run:
1. `busy_agents ≤ available_agents`;
2. in 'full' mode `available_agents = NUM_AGENTS_FULL`;
3. in 'simplified' mode `available_agents = NUM_AGENTS_SIMPLIFIED`;
4. the raw resource capacity stays `NUM_AGENTS_SIMPLIFIED`;
5. the wait and QoE collections have equal length;
6./7. every queued or gated request arrived no later than now;
8. every recorded waiting time is nonnegative;
9. every drawn service time is nonnegative;
10. every extra-agent sample is `0` or
    `NUM_AGENTS_SIMPLIFIED - NUM_AGENTS_FULL`. -/
def Inv (s : SimState) : Prop :=
  s.busy_agents ≤ s.available_agents ∧
  (s.agent_type = .full → s.available_agents = NUM_AGENTS_FULL) ∧
  (s.agent_type = .simplified → s.available_agents = NUM_AGENTS_SIMPLIFIED) ∧
  s.capacity = NUM_AGENTS_SIMPLIFIED ∧
  s.waiting_times.length = s.qoe_values.length ∧
  (∀ p ∈ s.gate, (p : ℕ × ℚ).2 ≤ s.now) ∧
  (∀ p ∈ s.queue, (p : ℕ × ℚ).2 ≤ s.now) ∧
  (∀ w ∈ s.waiting_times, 0 ≤ w) ∧
  (∀ d ∈ s.service_draws, 0 ≤ d) ∧
  (∀ x ∈ s.simplified_agent_counts_over_time,
    x = 0 ∨ x = (NUM_AGENTS_SIMPLIFIED : ℚ) - (NUM_AGENTS_FULL : ℚ))

theorem inv_init : Inv initState := by
  refine ⟨?_, ?_, ?_, ?_, ?_, ?_, ?_, ?_, ?_, ?_⟩ <;> simp [initState, Inv, NUM_AGENTS_FULL]

theorem inv_step {cfg : Config} {s t : SimState} (hI : Inv s) (h : Step cfg s t) :
    Inv t := by
  obtain ⟨h1, h2, h3, h4, h5, h6, h7, h8, h9, h10⟩ := hI
  cases h with
  | advance d hd =>
    refine ⟨h1, h2, h3, h4, h5, ?_, ?_, h8, h9, h10⟩
    · intro p hp
      exact (h6 p hp).trans (by simp [advanceStep]; linarith)
    · intro p hp
      exact (h7 p hp).trans (by simp [advanceStep]; linarith)
  | arrive id =>
    unfold arriveStep
    split_ifs with hc
    · refine ⟨h1, h2, h3, h4, h5, ?_, h7, h8, h9, h10⟩
      intro p hp
      rcases List.mem_append.mp hp with hp | hp
      · exact h6 p hp
      · rw [List.mem_singleton.mp hp]
    · refine ⟨h1, h2, h3, h4, h5, h6, ?_, h8, h9, h10⟩
      intro p hp
      rcases List.mem_append.mp hp with hp | hp
      · exact h7 p hp
      · rw [List.mem_singleton.mp hp]
  | enter g₁ g₂ id a d hg hbusy hd =>
    have hmem : (id, a) ∈ s.gate := by
      rw [hg]; exact List.mem_append_right _ (List.mem_cons_self _ _)
    have ha : a ≤ s.now := h6 (id, a) hmem
    refine ⟨by simpa [enterServiceStep] using hbusy, h2, h3, h4, ?_, ?_, h7, ?_, ?_, h10⟩
    · simp [enterServiceStep, h5]
    · intro p hp
      simp only [enterServiceStep] at hp ⊢
      refine h6 p ?_
      rw [hg]
      simp at hp ⊢
      rcases hp with hp | hp
      · exact Or.inl hp
      · exact Or.inr (Or.inr hp)
    · intro w hw
      simp [enterServiceStep] at hw
      rcases hw with hw | hw
      · exact h8 w hw
      · rw [hw]; linarith
    · intro x hx
      simp [enterServiceStep] at hx
      rcases hx with hx | hx
      · exact h9 x hx
      · rw [hx]; exact hd
  | endService hin =>
    rcases hq : s.queue with _ | ⟨r, rest⟩ <;>
      simp only [endServiceStep, hq]
    · exact ⟨(Nat.sub_le _ _).trans h1, h2, h3, h4, h5, h6, by simp, h8, h9, h10⟩
    · refine ⟨(Nat.sub_le _ _).trans h1, h2, h3, h4, h5, ?_, ?_, h8, h9, h10⟩
      · intro p hp
        simp at hp
        rcases hp with hp | hp
        · exact h6 p hp
        · rw [hp]
          exact h7 r (by rw [hq]; exact List.mem_cons_self _ _)
      · intro p hp
        exact h7 p (by rw [hq]; exact List.mem_cons_of_mem _ hp)
  | monitorQueue =>
    have hrec : ∀ u : SimState, Inv u →
        Inv (recordAgentsStep u) := by
      intro u hu
      obtain ⟨u1, u2, u3, u4, u5, u6, u7, u8, u9, u10⟩ := hu
      refine ⟨u1, u2, u3, u4, u5, u6, u7, u8, u9, ?_⟩
      intro x hx
      simp [recordAgentsStep] at hx
      rcases hx with hx | hx
      · exact u10 x hx
      · by_cases hat : u.agent_type = .simplified
        · rw [hx]
          simp [hat, u3 hat]
        · rw [hx]
          simp [hat]
    have hsw : Inv (switchStep cfg s) := by
      unfold switchStep
      split_ifs with hc1 hc2
      · have havail : s.available_agents ≤ NUM_AGENTS_SIMPLIFIED := by
          cases hat : s.agent_type
          · rw [h2 hat]; decide
          · rw [h3 hat]
        exact ⟨h1.trans havail, by simp, by simp, h4, h5, h6, h7, h8, h9, h10⟩
      · exact ⟨hc2.2.2, by simp, by simp, h4, h5, h6, h7, h8, h9, h10⟩
      · exact ⟨h1, h2, h3, h4, h5, h6, h7, h8, h9, h10⟩
    exact hrec _ hsw
  | monitorQoE =>
    exact ⟨h1, h2, h3, h4, h5, h6, h7, h8, h9, h10⟩

theorem inv_reachable {cfg : Config} {s : SimState} (h : Reachable cfg s) :
    Inv s := by
  induction h with
  | init => exact inv_init
  | step _ hs ih => exact inv_step ih hs

/-! ## The executable event loop

A deterministic interpreter for one run, mirroring simpy's scheduler.
All randomness is supplied as a stream `draws : ℕ → ℚ` of the successive
values returned by `random.expovariate`, consumed in program order (the
global Mersenne-Twister stream of the `random` module is a deterministic
function of the seed, so fixing the seed fixes this stream). -/

/-- The resumption points of the four kinds of tasks:
* `genInit` — `generate_requests` starts (its `env.process` call at line
  144): it draws the first inter-arrival time and sleeps;
* `genWake` — `generate_requests` resumes after
  `yield env.timeout(inter_arrival_time)`: it spawns a `process_request`
  task, draws the next inter-arrival time and sleeps again;
* `startReq id` — a spawned `process_request` task starts (simpy
  Initialize event): records its arrival time and requests the resource;
* `resumeReq id arrival` — the task resumes at the gate check
  (after `yield req` was granted, or after a 0.01 polling timeout);
* `endServ id` — the task resumes after its service timeout;
* `monitorQueueWake` / `monitorQoEWake` — one monitor iteration. -/
inductive Ev where
  | genInit
  | genWake
  | startReq (id : ℕ)
  | resumeReq (id : ℕ) (arrival : ℚ)
  | endServ (id : ℕ)
  | monitorQueueWake
  | monitorQoEWake
deriving DecidableEq, Repr

/-- A scheduled event: simpy orders its heap by
`(time, priority, event id)`; `prio 0` is URGENT (process
initialization), `prio 1` is NORMAL (timeouts and triggered resource
requests), `seq` is the global insertion counter. -/
structure EvEntry where
  time : ℚ
  prio : ℕ
  seq : ℕ
  ev : Ev
deriving DecidableEq, Repr

/-- Strict scheduling order on pending events. -/
def EvEntry.before (a b : EvEntry) : Bool :=
  decide (a.time < b.time ∨ (a.time = b.time ∧
    (a.prio < b.prio ∨ (a.prio = b.prio ∧ a.seq < b.seq))))

/-- Remove the scheduled event that fires first (all `seq` values are
distinct, so the order has no ties). -/
def popMin : List EvEntry → Option (EvEntry × List EvEntry)
  | [] => none
  | e :: es =>
    match popMin es with
    | none => some (e, [])
    | some (m, rest) => if e.before m then some (e, es) else some (m, e :: rest)

/-- The full state of the interpreter: the simulation state shared with
the relation, the pending-event list, the insertion counter, the index of
the next unconsumed random draw, and the generator's `request_id`. -/
structure ExecState where
  sim : SimState
  events : List EvEntry
  seq : ℕ
  draw_index : ℕ
  request_id : ℕ
deriving DecidableEq, Repr

/-- Schedule an event at absolute time `t` with priority `p`. -/
def sched (t : ℚ) (p : ℕ) (ev : Ev) (st : ExecState) : ExecState :=
  { st with events := st.events ++ [⟨t, p, st.seq, ev⟩], seq := st.seq + 1 }

/-- Process one fired event, applying the corresponding atomic-action
function of the relation and scheduling the follow-up events, exactly as
the task bodies do. -/
def handle (cfg : Config) (draws : ℕ → ℚ) (e : EvEntry) (st : ExecState) :
    ExecState :=
  match e.ev with
  | .genInit =>
    let ia := draws st.draw_index
    let st := { st with draw_index := st.draw_index + 1 }
    sched (st.sim.now + ia) 1 .genWake st
  | .genWake =>
    let rid := st.request_id + 1
    let st := { st with request_id := rid }
    let st := sched st.sim.now 0 (.startReq rid) st
    let ia := draws st.draw_index
    let st := { st with draw_index := st.draw_index + 1 }
    sched (st.sim.now + ia) 1 .genWake st
  | .startReq id =>
    let granted := st.sim.users < st.sim.capacity
    let st := { st with sim := arriveStep id st.sim }
    if granted then sched st.sim.now 1 (.resumeReq id st.sim.now) st else st
  | .resumeReq id a =>
    if st.sim.busy_agents ≥ st.sim.available_agents then
      sched (st.sim.now + 1/100) 1 (.resumeReq id a) st
    else
      let d := draws st.draw_index
      let st := { st with
        draw_index := st.draw_index + 1
        sim := enterServiceStep (st.sim.gate.erase (id, a)) a d st.sim }
      sched (st.sim.now + d) 1 (.endServ id) st
  | .endServ _ =>
    let woken := st.sim.queue.head?
    let st := { st with sim := endServiceStep st.sim }
    match woken with
    | some r => sched st.sim.now 1 (.resumeReq r.1 r.2) st
    | none => st
  | .monitorQueueWake =>
    let st := { st with sim := monitorQueueStep cfg st.sim }
    sched (st.sim.now + 1) 1 .monitorQueueWake st
  | .monitorQoEWake =>
    let st := { st with sim := monitorQoEStep st.sim }
    sched (st.sim.now + 1) 1 .monitorQoEWake st

/-- The interpreter state just before `env.run(until=SIM_TIME)`: the three
`env.process` calls of lines 144-146 have scheduled the initialization of
`generate_requests`, `monitor_queue` and `monitor_qoe`, in that order, at
time 0 with URGENT priority. -/
def initExec : ExecState :=
  let st : ExecState :=
    { sim := initState, events := [], seq := 0, draw_index := 0, request_id := 0 }
  let st := sched 0 0 .genInit st
  let st := sched 0 0 .monitorQueueWake st
  sched 0 0 .monitorQoEWake st

/-- Fire the next pending event, or return `none` when the run is over:
either no event is pending or the next event is at or past `SIM_TIME`
(the stop event of `env.run(until=SIM_TIME)`, scheduled with URGENT
priority before any same-time event, fires first there). -/
def execStep (cfg : Config) (draws : ℕ → ℚ) (st : ExecState) :
    Option ExecState :=
  match popMin st.events with
  | none => none
  | some (e, rest) =>
    if SIM_TIME ≤ e.time then none
    else
      some (handle cfg draws e
        { st with events := rest, sim := { st.sim with now := e.time } })

/-- Run the interpreter for at most `fuel` events from `initExec`.  The
result after the run has ended is stable, so any sufficiently large fuel
yields the final state of the run. -/
def simulate (cfg : Config) (draws : ℕ → ℚ) : ℕ → ExecState
  | 0 => initExec
  | n + 1 =>
    match execStep cfg draws (simulate cfg draws n) with
    | some st => st
    | none => simulate cfg draws n

/-! ## Helper lemmas -/

theorem arriveStep_metrics (id : ℕ) (s : SimState) :
    (arriveStep id s).waiting_times = s.waiting_times ∧
    (arriveStep id s).qoe_values = s.qoe_values ∧
    (arriveStep id s).agent_type = s.agent_type ∧
    (arriveStep id s).capacity = s.capacity := by
  unfold arriveStep
  split_ifs <;> exact ⟨rfl, rfl, rfl, rfl⟩

theorem endServiceStep_metrics (s : SimState) :
    (endServiceStep s).waiting_times = s.waiting_times ∧
    (endServiceStep s).qoe_values = s.qoe_values ∧
    (endServiceStep s).agent_type = s.agent_type ∧
    (endServiceStep s).capacity = s.capacity := by
  unfold endServiceStep
  cases s.queue <;> exact ⟨rfl, rfl, rfl, rfl⟩

theorem switchStep_metrics (cfg : Config) (s : SimState) :
    (switchStep cfg s).waiting_times = s.waiting_times ∧
    (switchStep cfg s).qoe_values = s.qoe_values ∧
    (switchStep cfg s).capacity = s.capacity ∧
    (switchStep cfg s).simplified_agent_counts_over_time =
      s.simplified_agent_counts_over_time := by
  unfold switchStep
  split_ifs <;> exact ⟨rfl, rfl, rfl, rfl⟩

/-- The mode/available-agents coupling survives the if/elif of a
`monitor_queue` iteration: right after the potential switch — the very
values the sampling on lines 128-130 reads — 'full' mode still has
`available_agents = NUM_AGENTS_FULL` and 'simplified' mode has
`available_agents = NUM_AGENTS_SIMPLIFIED`. -/
theorem switchStep_available {cfg : Config} {s : SimState} (hI : Inv s) :
    ((switchStep cfg s).agent_type = AgentType.full →
      (switchStep cfg s).available_agents = NUM_AGENTS_FULL) ∧
    ((switchStep cfg s).agent_type = AgentType.simplified →
      (switchStep cfg s).available_agents = NUM_AGENTS_SIMPLIFIED) := by
  obtain ⟨-, h2, h3, -⟩ := hI
  unfold switchStep
  split_ifs with hc1 hc2
  · exact ⟨fun hat => by simp at hat, fun _ => rfl⟩
  · exact ⟨fun _ => rfl, fun hat => by simp at hat⟩
  · exact ⟨h2, h3⟩

theorem step_capacity {cfg : Config} {s t : SimState} (h : Step cfg s t) :
    t.capacity = s.capacity := by
  cases h with
  | advance d hd => rfl
  | arrive id => exact (arriveStep_metrics id s).2.2.2
  | enter g₁ g₂ id a d hg hb hd => rfl
  | endService hin => exact (endServiceStep_metrics s).2.2.2
  | monitorQueue => exact (switchStep_metrics cfg s).2.2.1
  | monitorQoE => rfl

/-- For any transition, either neither metric collection changes, or a
single wait and, in the same atomic segment, a single QoE value are
appended. -/
theorem step_metrics {cfg : Config} {s t : SimState} (h : Step cfg s t) :
    (t.waiting_times = s.waiting_times ∧ t.qoe_values = s.qoe_values) ∨
    (∃ a, (∃ id, (id, a) ∈ s.gate) ∧
      t.waiting_times = s.waiting_times ++ [s.now - a] ∧
      t.qoe_values = s.qoe_values ++
        [max 0 (baseQoE s.agent_type - ALPHA * (s.now - a))]) := by
  cases h with
  | advance d hd => exact Or.inl ⟨rfl, rfl⟩
  | arrive id => exact Or.inl ⟨(arriveStep_metrics id s).1, (arriveStep_metrics id s).2.1⟩
  | enter g₁ g₂ id a d hg hb hd =>
    refine Or.inr ⟨a, ⟨id, ?_⟩, rfl, rfl⟩
    rw [hg]
    exact List.mem_append_right _ (List.mem_cons_self _ _)
  | endService hin =>
    exact Or.inl ⟨(endServiceStep_metrics s).1, (endServiceStep_metrics s).2.1⟩
  | monitorQueue => exact Or.inl ⟨(switchStep_metrics cfg s).1, (switchStep_metrics cfg s).2.1⟩
  | monitorQoE => exact Or.inl ⟨rfl, rfl⟩

/-- The mean of a list whose members are all `0` or `c ≥ 0` (with the
source's empty-list fallback `0`) lies in `[0, c]`. -/
theorem average_simplified_agents_bounds (xs : List ℚ) (c : ℚ) (hc : 0 ≤ c)
    (h : ∀ x ∈ xs, x = 0 ∨ x = c) :
    0 ≤ average_simplified_agents xs ∧ average_simplified_agents xs ≤ c := by
  unfold average_simplified_agents
  split_ifs with he
  · exact ⟨le_refl 0, hc⟩
  · have hlen0 : xs.length ≠ 0 := by simpa [List.length_eq_zero] using he
    have hlen : 0 < (xs.length : ℚ) := by exact_mod_cast Nat.pos_of_ne_zero hlen0
    have hnn : ∀ x ∈ xs, 0 ≤ x := by
      intro x hx
      rcases h x hx with h0 | h0 <;> simp [h0, hc]
    have hub : ∀ x ∈ xs, x ≤ c := by
      intro x hx
      rcases h x hx with h0 | h0 <;> simp [h0, hc]
    refine ⟨div_nonneg (List.sum_nonneg hnn) hlen.le, ?_⟩
    rw [div_le_iff₀ hlen]
    calc xs.sum ≤ xs.length • c := List.sum_le_card_nsmul xs c hub
      _ = c * (xs.length : ℚ) := by rw [nsmul_eq_mul]; ring

/-! ## Concrete runs used as witnesses

`cfgA` is a sweep configuration (arrival rate 0.1, switch-to-simplified
threshold 1); the chain `sA1`, `sA2` reaches a state in which one request
has arrived at time 0 and entered service with service draw 1/2.
`cfgB` (both thresholds 0) drives the chain `sB0..sB3`: 21 requests
arrive at time 0 (20 take raw slots, one queues), the queue monitor
switches to 'simplified', one request enters and finishes service handing
its slot to the queued request, leaving an empty resource queue in
'simplified' mode with no busy agent. -/

def cfgA : Config := ⟨1/10, 1, 1, 0⟩

def sA1 : SimState := arriveStep 1 initState

def sA2 : SimState := enterServiceStep [] 0 1 sA1

theorem reachA1 : Reachable cfgA sA1 :=
  Reachable.step Reachable.init (Step.arrive initState 1)

theorem stepA12 : Step cfgA sA1 sA2 :=
  Step.enter sA1 [] [] 1 0 1 (by decide) (by decide) (by decide)

theorem reachA2 : Reachable cfgA sA2 := Reachable.step reachA1 stepA12

def cfgB : Config := ⟨1/10, 1, 0, 0⟩

def arriveMany (ids : List ℕ) (s : SimState) : SimState :=
  ids.foldl (fun u id => arriveStep id u) s

theorem reachable_arriveMany (cfg : Config) (ids : List ℕ) (s : SimState)
    (h : Reachable cfg s) : Reachable cfg (arriveMany ids s) := by
  induction ids generalizing s with
  | nil => exact h
  | cons id ids ih => exact ih (arriveStep id s) (Reachable.step h (Step.arrive s id))

def idsB : List ℕ := (List.range 21).map (fun i => i + 1)

def sB0 : SimState := arriveMany idsB initState

def sB1 : SimState := monitorQueueStep cfgB sB0

def gateRestB : List (ℕ × ℚ) := (List.range 19).map (fun i => (i + 2, (0 : ℚ)))

def sB2 : SimState := enterServiceStep gateRestB 0 1 sB1

def sB3 : SimState := endServiceStep sB2

theorem reachB1 : Reachable cfgB sB1 :=
  Reachable.step (reachable_arriveMany cfgB idsB initState Reachable.init)
    (Step.monitorQueue sB0)

theorem stepB12 : Step cfgB sB1 sB2 :=
  Step.enter sB1 [] gateRestB 1 0 1 (by decide) (by decide) (by decide)

theorem reachB3 : Reachable cfgB sB3 :=
  Reachable.step (Reachable.step reachB1 stepB12)
    (Step.endService sB2 (by decide))

/-! ## The claims -/

/-- C1: at every suspension point of every run, the busy-agent counter
never exceeds the active mode's available-agent limit: the polling gate
admits a Request Processor only after observing
`busy_agents < available_agents` (and increments with no suspension point
in between), and `monitor_queue` lowers `available_agents` to
`NUM_AGENTS_FULL` only when `busy_agents <= NUM_AGENTS_FULL`, so
`busy_agents ≤ available_agents` holds in every reachable state. -/
theorem busy_never_exceeds_available (cfg : Config) (s : SimState)
    (h : Reachable cfg s) : s.busy_agents ≤ s.available_agents :=
  (inv_reachable h).1

theorem busy_never_exceeds_available_witness :
    Reachable cfgA sA2 ∧ sA2.busy_agents ≤ sA2.available_agents :=
  ⟨reachA2, busy_never_exceeds_available cfgA sA2 reachA2⟩

/-- C2: whenever a transition appends a QoE value, it is produced together
with the corresponding wait time `w = env.now - arrival_time` (which is
nonnegative), equals `max(0, base - ALPHA * w)` for the baseline `base` of
the mode active at that very transition (the instant of entering service;
the value is never recomputed, every step only appends to the
collection), and therefore lies in `[0, base]`. -/
theorem qoe_formula_and_bounds (cfg : Config) (s t : SimState)
    (hr : Reachable cfg s) (hs : Step cfg s t) :
    (∃ tail, t.qoe_values = s.qoe_values ++ tail) ∧
    (∀ q, t.qoe_values = s.qoe_values ++ [q] →
      ∃ w, 0 ≤ w ∧ t.waiting_times = s.waiting_times ++ [w] ∧
        q = max 0 (baseQoE s.agent_type - ALPHA * w) ∧
        0 ≤ q ∧ q ≤ baseQoE s.agent_type) := by
  have hbase : 0 ≤ baseQoE s.agent_type := by
    cases s.agent_type <;>
      norm_num [baseQoE, QoE_FULL_BASE, QoE_SIMPLIFIED_BASE]
  have halpha : (0 : ℚ) ≤ ALPHA := by norm_num [ALPHA]
  rcases step_metrics hs with ⟨hw, hq⟩ | ⟨a, ⟨id, hmem⟩, hw, hq⟩
  · refine ⟨⟨[], by simp [hq]⟩, ?_⟩
    intro q hq2
    rw [hq] at hq2
    exact absurd (congrArg List.length hq2) (by simp)
  · have hwnn : 0 ≤ s.now - a :=
      sub_nonneg.mpr ((inv_reachable hr).2.2.2.2.2.1 (id, a) hmem)
    refine ⟨⟨_, hq⟩, ?_⟩
    intro q hq2
    rw [hq] at hq2
    have hqeq : max 0 (baseQoE s.agent_type - ALPHA * (s.now - a)) = q := by
      have := List.append_cancel_left hq2
      simpa using this
    refine ⟨s.now - a, hwnn, hw, hqeq.symm, ?_, ?_⟩
    · rw [← hqeq]; exact le_max_left 0 _
    · rw [← hqeq]
      exact max_le hbase (sub_le_self _ (mul_nonneg halpha hwnn))

theorem qoe_formula_and_bounds_witness :
    ∃ w, 0 ≤ w ∧ sA2.waiting_times = sA1.waiting_times ++ [w] ∧
      max 0 (baseQoE sA1.agent_type - ALPHA * (sA1.now - 0)) =
        max 0 (baseQoE sA1.agent_type - ALPHA * w) ∧
      0 ≤ max 0 (baseQoE sA1.agent_type - ALPHA * (sA1.now - 0)) ∧
      max 0 (baseQoE sA1.agent_type - ALPHA * (sA1.now - 0)) ≤
        baseQoE sA1.agent_type :=
  (qoe_formula_and_bounds cfgA sA1 sA2 reachA1 stepA12).2 _ rfl

/-- C4: a transition that changes the mode to 'full' can only be a
`monitor_queue` iteration whose guards held, i.e. the resource queue
length was at most `QUEUE_THRESHOLD_TO_BASE` and `busy_agents` was at most
`NUM_AGENTS_FULL`; hence a switch to 'full' never happens while the
busy-count exceeds the Full mode's agent limit. -/
theorem switch_to_full_guarded (cfg : Config) (s t : SimState)
    (_hr : Reachable cfg s) (hstep : Step cfg s t)
    (hne : s.agent_type ≠ AgentType.full)
    (hfull : t.agent_type = AgentType.full) :
    s.queue.length ≤ cfg.QUEUE_THRESHOLD_TO_BASE ∧
    s.busy_agents ≤ NUM_AGENTS_FULL := by
  cases hstep with
  | advance d hd => exact absurd hfull hne
  | arrive id =>
    rw [(arriveStep_metrics id s).2.2.1] at hfull
    exact absurd hfull hne
  | enter g₁ g₂ id a d hg hb hd => exact absurd hfull hne
  | endService hin =>
    rw [(endServiceStep_metrics s).2.2.1] at hfull
    exact absurd hfull hne
  | monitorQoE => exact absurd hfull hne
  | monitorQueue =>
    have hrec : (monitorQueueStep cfg s).agent_type =
        (switchStep cfg s).agent_type := rfl
    rw [hrec] at hfull
    unfold switchStep at hfull
    split_ifs at hfull with hc1 hc2
    · exact ⟨hc2.1, hc2.2.2⟩
    · exact absurd hfull hne

theorem switch_to_full_guarded_witness :
    Reachable cfgB sB3 ∧ sB3.agent_type ≠ AgentType.full ∧
    (monitorQueueStep cfgB sB3).agent_type = AgentType.full ∧
    (sB3.queue.length ≤ cfgB.QUEUE_THRESHOLD_TO_BASE ∧
      sB3.busy_agents ≤ NUM_AGENTS_FULL) :=
  ⟨reachB3, by decide, by decide,
    switch_to_full_guarded cfgB sB3 (monitorQueueStep cfgB sB3) reachB3
      (Step.monitorQueue sB3) (by decide) (by decide)⟩

/-- C5: the per-tick sample appended by `monitor_qoe` and the end-of-run
reductions are total on empty collections: the sample equals the
arithmetic mean `sum / len` of the QoE values recorded so far when at
least one exists and `QoE_FULL_BASE` otherwise, and the end-of-run mean
wait is `0` when no wait was recorded. -/
theorem mean_qoe_and_wait_fallbacks :
    (∀ s : SimState, (monitorQoEStep s).qoe_over_time =
      s.qoe_over_time ++ [currentMeanQoE s.qoe_values]) ∧
    (∀ xs : List ℚ, xs ≠ [] →
      currentMeanQoE xs = xs.sum / (xs.length : ℚ)) ∧
    currentMeanQoE [] = QoE_FULL_BASE ∧
    (∀ xs : List ℚ, xs ≠ [] → average_qoe xs = xs.sum / (xs.length : ℚ)) ∧
    average_qoe [] = QoE_FULL_BASE ∧
    (∀ xs : List ℚ, xs ≠ [] →
      average_waiting_time xs = xs.sum / (xs.length : ℚ)) ∧
    average_waiting_time [] = 0 :=
  ⟨fun _ => rfl,
   fun xs hxs => by simp [currentMeanQoE, hxs],
   by simp [currentMeanQoE],
   fun xs hxs => by simp [average_qoe, hxs],
   by simp [average_qoe],
   fun xs hxs => by simp [average_waiting_time, hxs],
   by simp [average_waiting_time]⟩

theorem mean_qoe_and_wait_fallbacks_witness :
    ([(1 : ℚ), 0] ≠ []) ∧
    currentMeanQoE [(1 : ℚ), 0] =
      [(1 : ℚ), 0].sum / (([(1 : ℚ), 0].length : ℕ) : ℚ) :=
  ⟨by simp, mean_qoe_and_wait_fallbacks.2.1 [(1 : ℚ), 0] (by simp)⟩

/-- C6: the interpreter's output is a function of the draw stream (which
the seeded global PRNG determines) and the configuration alone — two runs
with equal streams and equal parameters record identical wait-time and
QoE sequences. -/
theorem run_deterministic (cfg₁ cfg₂ : Config) (draws₁ draws₂ : ℕ → ℚ)
    (fuel : ℕ) (hc : cfg₁ = cfg₂) (hd : draws₁ = draws₂) :
    (simulate cfg₁ draws₁ fuel).sim.waiting_times =
      (simulate cfg₂ draws₂ fuel).sim.waiting_times ∧
    (simulate cfg₁ draws₁ fuel).sim.qoe_values =
      (simulate cfg₂ draws₂ fuel).sim.qoe_values := by
  subst hc
  subst hd
  exact ⟨rfl, rfl⟩

def unitDraws : ℕ → ℚ := fun _ => 1

theorem run_deterministic_witness :
    cfgA = cfgA ∧ unitDraws = unitDraws ∧
    ((simulate cfgA unitDraws 6).sim.waiting_times =
        (simulate cfgA unitDraws 6).sim.waiting_times ∧
      (simulate cfgA unitDraws 6).sim.qoe_values =
        (simulate cfgA unitDraws 6).sim.qoe_values) :=
  ⟨rfl, rfl, run_deterministic cfgA cfgA unitDraws unitDraws 6 rfl rfl⟩

/-- C7: the raw resource is created with
`capacity = NUM_AGENTS_SIMPLIFIED`, the larger of the two mode capacities,
and no transition ever changes it; the mode-dependent ceiling lives only
in the polling gate's guard. -/
theorem capacity_fixed (cfg : Config) (s t : SimState)
    (h : Reachable cfg s) (hs : Step cfg s t) :
    s.capacity = max NUM_AGENTS_FULL NUM_AGENTS_SIMPLIFIED ∧
    t.capacity = s.capacity := by
  refine ⟨?_, step_capacity hs⟩
  rw [(inv_reachable h).2.2.2.1]
  decide

theorem capacity_fixed_witness :
    Reachable cfgA sA1 ∧
    (sA1.capacity = max NUM_AGENTS_FULL NUM_AGENTS_SIMPLIFIED ∧
      sA2.capacity = sA1.capacity) :=
  ⟨reachA1, capacity_fixed cfgA sA1 sA2 reachA1 stepA12⟩

/-- C8 (amended): every recorded wait time is nonnegative and every drawn
service duration is nonnegative.  (The original claim's strict positivity
of the service draw fails: see `service_draw_zero_possible`.) -/
theorem waits_and_service_draws_nonneg (cfg : Config) (s : SimState)
    (h : Reachable cfg s) :
    (∀ w ∈ s.waiting_times, 0 ≤ w) ∧ (∀ d ∈ s.service_draws, 0 ≤ d) :=
  ⟨(inv_reachable h).2.2.2.2.2.2.2.1, (inv_reachable h).2.2.2.2.2.2.2.2.1⟩

theorem waits_and_service_draws_nonneg_witness :
    Reachable cfgA sA2 ∧
    ((∀ w ∈ sA2.waiting_times, 0 ≤ w) ∧ (∀ d ∈ sA2.service_draws, 0 ≤ d)) :=
  ⟨reachA2, waits_and_service_draws_nonneg cfgA sA2 reachA2⟩

/-- C8 counterexample: the drawn service duration is not always strictly
positive.  `random.expovariate(lambd)` returns
`-log(1.0 - random()) / lambd`, and `random.random()` can return `0.0`
(it draws `k/2^53` with `k = 0` possible), in which case the draw is
exactly `0`.  The state `sZ2` is reached when the first request arrives
at time 0, is granted a slot, passes the gate (`busy_agents = 0 <
available_agents = 10`) and enters service with service draw `0`: a
request has entered service whose drawn duration is not `> 0`. -/
def sZ2 : SimState := enterServiceStep [] 0 0 sA1

theorem service_draw_zero_possible :
    Reachable cfgA sZ2 ∧ sZ2.service_draws = [0] ∧
    ¬ (∀ d ∈ sZ2.service_draws, 0 < d) := by
  refine ⟨Reachable.step reachA1
    (Step.enter sA1 [] [] 1 0 0 (by decide) (by decide) (by decide)),
    rfl, ?_⟩
  intro hall
  exact absurd (hall 0 (List.mem_singleton_self 0)) (lt_irrefl 0)

/-- C9: the wait-time and QoE collections always have equal length, and
every transition either leaves both unchanged or appends exactly one wait
time and exactly one QoE value within the same atomic segment (there is
no suspension point between the two appends, and no other task touches
either collection). -/
theorem waits_qoe_aligned (cfg : Config) :
    (∀ s, Reachable cfg s →
      s.waiting_times.length = s.qoe_values.length) ∧
    (∀ s t, Step cfg s t →
      (t.waiting_times = s.waiting_times ∧ t.qoe_values = s.qoe_values) ∨
      (∃ w q, t.waiting_times = s.waiting_times ++ [w] ∧
        t.qoe_values = s.qoe_values ++ [q])) := by
  constructor
  · intro s h
    exact (inv_reachable h).2.2.2.2.1
  · intro s t hs
    rcases step_metrics hs with ⟨hw, hq⟩ | ⟨a, _, hw, hq⟩
    · exact Or.inl ⟨hw, hq⟩
    · exact Or.inr ⟨_, _, hw, hq⟩

theorem waits_qoe_aligned_witness :
    sA2.waiting_times.length = sA2.qoe_values.length ∧
    ((sA2.waiting_times = sA1.waiting_times ∧
        sA2.qoe_values = sA1.qoe_values) ∨
      (∃ w q, sA2.waiting_times = sA1.waiting_times ++ [w] ∧
        sA2.qoe_values = sA1.qoe_values ++ [q])) :=
  ⟨(waits_qoe_aligned cfgA).1 sA2 reachA2,
   (waits_qoe_aligned cfgA).2 sA1 sA2 stepA12⟩

/-- C10: the extra-agent sample appended by a `monitor_queue` iteration
is exactly `0` when the mode flag is 'full' at the recording instant and
exactly `NUM_AGENTS_SIMPLIFIED - NUM_AGENTS_FULL` (10) when it is
'simplified' — the sampling on lines 128-130 reads `agent_type` and
`available_agents` as already updated by the iteration's if/elif, and in
'simplified' mode `available_agents = NUM_AGENTS_SIMPLIFIED` (nothing
between the switch and the append changes the flag, so the post-step
flag is the flag at the recording instant); consequently every recorded
sample is `0` or `10`, and the end-of-run mean lies in
`[0, NUM_AGENTS_SIMPLIFIED - NUM_AGENTS_FULL]`. -/
theorem extra_agent_samples_bounded (cfg : Config) (s : SimState)
    (h : Reachable cfg s) :
    ((monitorQueueStep cfg s).simplified_agent_counts_over_time =
      s.simplified_agent_counts_over_time ++
        [if (monitorQueueStep cfg s).agent_type = AgentType.simplified
          then (NUM_AGENTS_SIMPLIFIED : ℚ) - (NUM_AGENTS_FULL : ℚ) else 0]) ∧
    (∀ x ∈ s.simplified_agent_counts_over_time,
      x = 0 ∨ x = (NUM_AGENTS_SIMPLIFIED : ℚ) - (NUM_AGENTS_FULL : ℚ)) ∧
    0 ≤ average_simplified_agents s.simplified_agent_counts_over_time ∧
    average_simplified_agents s.simplified_agent_counts_over_time ≤
      (NUM_AGENTS_SIMPLIFIED : ℚ) - (NUM_AGENTS_FULL : ℚ) := by
  have hI := inv_reachable h
  have h10 := hI.2.2.2.2.2.2.2.2.2
  have hc : (0 : ℚ) ≤ (NUM_AGENTS_SIMPLIFIED : ℚ) - (NUM_AGENTS_FULL : ℚ) := by
    norm_num [NUM_AGENTS_SIMPLIFIED, NUM_AGENTS_FULL]
  refine ⟨?_, h10, average_simplified_agents_bounds _ _ hc h10⟩
  have hmode : (monitorQueueStep cfg s).agent_type =
      (switchStep cfg s).agent_type := rfl
  have hcounts := (switchStep_metrics cfg s).2.2.2
  by_cases hat : (switchStep cfg s).agent_type = AgentType.simplified
  · simp [monitorQueueStep, recordAgentsStep, hmode, hat, hcounts,
      (switchStep_available hI).2 hat]
  · simp [monitorQueueStep, recordAgentsStep, hmode, hat, hcounts]

theorem extra_agent_samples_bounded_witness :
    Reachable cfgB sB1 ∧
    (((monitorQueueStep cfgB sB1).simplified_agent_counts_over_time =
        sB1.simplified_agent_counts_over_time ++
          [if (monitorQueueStep cfgB sB1).agent_type = AgentType.simplified
            then (NUM_AGENTS_SIMPLIFIED : ℚ) - (NUM_AGENTS_FULL : ℚ) else 0]) ∧
      (∀ x ∈ sB1.simplified_agent_counts_over_time,
        x = 0 ∨ x = (NUM_AGENTS_SIMPLIFIED : ℚ) - (NUM_AGENTS_FULL : ℚ)) ∧
      0 ≤ average_simplified_agents sB1.simplified_agent_counts_over_time ∧
      average_simplified_agents sB1.simplified_agent_counts_over_time ≤
        (NUM_AGENTS_SIMPLIFIED : ℚ) - (NUM_AGENTS_FULL : ℚ)) :=
  ⟨reachB1, extra_agent_samples_bounded cfgB sB1 reachB1⟩

/-! ## Configuration validity (C3) -/

/-- Modelled from the spec: a run configuration is valid when the arrival
rate is positive, the mean service time is positive, and
threshold-to-base is strictly below threshold-to-simplify.
`run_simulation` performs no corresponding check anywhere; this predicate
exists only to state the configuration claims. -/
def isValidConfig (cfg : Config) : Prop :=
  0 < cfg.REQUEST_ARRIVAL_RATE ∧ 0 < cfg.AVG_PROCESSING_TIME ∧
  cfg.QUEUE_THRESHOLD_TO_BASE < cfg.QUEUE_THRESHOLD_TO_SIMP

/-- Line 25:
`arrival_rates = [0.1 * i for i in range(1, 10)] + list(range(1, 21))`. -/
def arrival_rates : List ℚ :=
  ((List.range 9).map fun n : ℕ => ((n : ℚ) + 1) / 10) ++
    ((List.range 20).map fun n : ℕ => ((n : ℚ) + 1))

/-- Line 28: `queue_thresholds = [1, 3, 5, 7, 10]`. -/
def queue_thresholds : List ℕ := [1, 3, 5, 7, 10]

/-- The configurations the sweep actually runs
(`AVG_PROCESSING_TIME = 1` and `QUEUE_THRESHOLD_TO_BASE = 0` are the
hardcoded values of lines 18-19). -/
def sweepConfigs : List Config :=
  queue_thresholds.flatMap fun th =>
    arrival_rates.map fun r => (⟨r, 1, th, 0⟩ : Config)

/-- A configuration that is invalid in the sense of the spec
(threshold-to-base `5` is not below threshold-to-simplify `3`). -/
def invalidCfg : Config := ⟨1, 1, 3, 5⟩

/-- C3 counterexample: the program does not fail fast on an invalid
configuration — it contains no validation at all.  On `invalidCfg` the
run simply starts and proceeds: the initial `monitor_queue` iteration is
a legal transition from the initial state and records its time-0 sample,
and the interpreter's event loop fires its first event rather than
stopping. -/
theorem invalid_config_run_proceeds :
    ¬ isValidConfig invalidCfg ∧
    Reachable invalidCfg (monitorQueueStep invalidCfg initState) ∧
    (monitorQueueStep invalidCfg initState).time_points = [0] ∧
    (execStep invalidCfg unitDraws initExec).isSome = true := by
  refine ⟨?_, Reachable.step Reachable.init (Step.monitorQueue initState),
    by decide, by decide⟩
  intro h
  exact absurd h.2.2 (by decide)

/-- C3 (amended): the source performs no fail-fast validation, but every
configuration of the hardcoded sweep is valid — all arrival rates are
positive, the mean service time is `1 > 0`, and `QUEUE_THRESHOLD_TO_BASE
= 0` is strictly below every swept threshold — so no invalid
configuration ever starts a run. -/
theorem sweep_configs_all_valid : ∀ c ∈ sweepConfigs, isValidConfig c := by
  intro c hc
  unfold sweepConfigs at hc
  rw [List.mem_flatMap] at hc
  obtain ⟨th, hth, hc⟩ := hc
  rw [List.mem_map] at hc
  obtain ⟨r, hr, rfl⟩ := hc
  refine ⟨?_, ?_, ?_⟩
  · unfold arrival_rates at hr
    rw [List.mem_append] at hr
    rcases hr with hr | hr <;> rw [List.mem_map] at hr <;>
      obtain ⟨i, _, rfl⟩ := hr <;> positivity
  · norm_num
  · show (0 : ℕ) < th
    fin_cases hth <;> decide

theorem sweep_configs_all_valid_witness :
    (⟨1, 1, 1, 0⟩ : Config) ∈ sweepConfigs ∧
    isValidConfig ⟨1, 1, 1, 0⟩ := by
  have h1 : (1 : ℚ) ∈ arrival_rates := by
    have h0 : ((0 : ℕ) : ℚ) + 1 = (1 : ℚ) := by norm_num
    unfold arrival_rates
    refine List.mem_append_right _ (List.mem_map.mpr ⟨0, ?_, h0⟩)
    exact List.mem_range.mpr (by norm_num)
  have hmem : (⟨1, 1, 1, 0⟩ : Config) ∈ sweepConfigs := by
    unfold sweepConfigs
    refine List.mem_flatMap.mpr ⟨1, ?_, ?_⟩
    · decide
    · exact List.mem_map.mpr ⟨1, h1, rfl⟩
  exact ⟨hmem, sweep_configs_all_valid _ hmem⟩

end ContactCenter
